import Mathlib

/-!
Shallow embedding of the extraction-and-validation core of
`crates/rust-project-goals/src/goal.rs`: the metadata extractor, status
parser, plan extractor, ownership resolver, team-ask aggregator, goal
document aggregator and summary table formatter.

Modelling conventions:
* table cells (Rust `Spanned<String>`) are plain `String`s — spans carry
  only source positions, which none of the verified properties mention;
* paths (`PathBuf`) are lists of components;
* `anyhow` errors become the structured type `GoalErr`, one constructor
  per `bail!`/`ensure!` site, carrying the same data as the format
  arguments of the corresponding message;
* external collaborators that are not part of this file of the source
  (the `re::USERNAME` regex, the `re` placeholder literals, the team
  registry, the recognized-ask configuration, `IssueId` parsing and URL
  rendering) are parameters, gathered in the context structure `Ctx`;
* a Rust panic (`unwrap` on `None`) is modelled as `Option.none` in the
  result of the function that can panic.
-/

set_option autoImplicit false

namespace RPG

/-! ## String helpers -/

/-- Substring containment, modelling Rust `str::contains` with a literal
pattern: `pat` occurs as a contiguous substring of `s`. -/
def infixOfB (pat : List Char) : List Char → Bool
  | [] => pat.isEmpty
  | c :: rest => pat.isPrefixOf (c :: rest) || infixOfB pat rest

/-- `strContains s pat` is Rust `s.contains(pat)` for a literal `pat`. -/
def strContains (s pat : String) : Bool :=
  infixOfB pat.data s.data

/-- Rust `str::trim`: remove leading and trailing whitespace.  Defined by
structural recursion over the character list so that it evaluates inside
the kernel. -/
def strTrim (s : String) : String :=
  String.mk (((s.data.dropWhile Char.isWhitespace).reverse.dropWhile
    Char.isWhitespace).reverse)

/-- Rust `str::split(sep)`: the pieces between occurrences of `sep`
(an empty input yields one empty piece, like the Rust iterator). -/
def splitOnChar (sep : Char) : List Char → List (List Char)
  | [] => [[]]
  | c :: rest =>
    if c = sep then [] :: splitOnChar sep rest
    else
      match splitOnChar sep rest with
      | [] => [[c]]
      | p :: ps => (c :: p) :: ps

/-! ## Section/table model (external `markwaydown` interface) -/

/-- One parsed table: a header row and content rows, each a list of cells. -/
structure Table where
  header : List String
  rows : List (List String)
  deriving DecidableEq, Repr

/-- One document section: title, nesting level, free text, and tables. -/
structure Section where
  title : String
  level : Nat
  text : String
  tables : List Table
  deriving DecidableEq, Repr

/-- Cell access `row[i]`; `markwaydown` produces rows as wide as the
header, so the out-of-range default is never hit on real input. -/
def cell (row : List String) (i : Nat) : String :=
  row.getD i ""

/-! ## Status -/

inductive AcceptanceStatus where
  | Proposed
  | Accepted
  | NotAccepted
  deriving DecidableEq, Repr

structure Status where
  is_flagship : Bool
  acceptance : AcceptanceStatus
  is_invited : Bool
  deriving DecidableEq, Repr

/-- True if this goal has not yet been rejected. -/
def Status.is_not_not_accepted (s : Status) : Bool :=
  s.acceptance != AcceptanceStatus.NotAccepted

/-! ## Issue identifiers (external `gh::issue_id` interface) -/

structure Repository where
  org : String
  repo : String
  deriving DecidableEq, Repr

structure IssueId where
  repository : Repository
  number : Nat
  deriving DecidableEq, Repr

/-! ## Errors

One constructor per `bail!` / `ensure!` site of the source, carrying the
data interpolated into the corresponding message. -/

inductive GoalErr where
  | noSections
  | emptyTitle
  | badHeader (expected found : List String)
  | noPocRow
  | badPoc (found : String)
  | noStatusRow
  | invalidStatus (value : String) (validValues : List String)
  | emptyTrackingIssue
  | badIssue (value : String)
  | missingRow (key : String)
  | wrongRowValue (key expected : String)
  | noOwnershipSection
  | noGoalPlans
  | multipleTables (count : Nat) (title : String)
  | unknownTeam (name : String) (validNames : List String)
  | emptyTeamAsk (text : String)
  | unrecognizedAsk (text : String) (validAsks : List (String × String))
  | noTeamAsks
  deriving DecidableEq, Repr

/-! ## External context

Parameters for the collaborators the core consumes but does not define:
the username regex and the two fixed placeholder literals from `re`, the
team registry, the recognized-ask configuration, and `IssueId` parsing /
URL rendering from `gh::issue_id`. -/

structure Ctx where
  is_just_username : String → Bool
  teams_with_asks_str : String
  task_owners_str : String
  team_names : List String
  team_asks_config : List (String × String)
  parse_issue : String → Except GoalErr IssueId
  issue_url : IssueId → String

/-! ## Monadic collection helpers

Rust `for` loops that push into a vector and propagate `?`, and
`.collect::<Result<_,_>>()`, are modelled by explicit structural
recursion so that proofs can proceed by list induction. -/

/-- Collect `f` over a list in the `Except` monad, stopping at the first
error (Rust `?` inside a loop). -/
def mapE {α β : Type} (f : α → Except GoalErr β) : List α → Except GoalErr (List β)
  | [] => Except.ok []
  | x :: xs => do
    let y ← f x
    let ys ← mapE f xs
    pure (y :: ys)

/-- Collect `f` over a list in the `Option` monad, `none` as soon as any
element yields `none` (models a panic inside a loop). -/
def mapO {α β : Type} (f : α → Option β) : List α → Option (List β)
  | [] => some []
  | x :: xs => do
    let y ← f x
    let ys ← mapO f xs
    pure (y :: ys)

/-! ## Status parser (`Status::try_from`) -/

def statusValidValues : List (String × Status) :=
  [ ("Flagship",
     { is_flagship := true, acceptance := AcceptanceStatus.Accepted, is_invited := false }),
    ("Accepted",
     { is_flagship := false, acceptance := AcceptanceStatus.Accepted, is_invited := false }),
    ("Invited",
     { is_flagship := false, acceptance := AcceptanceStatus.Accepted, is_invited := true }),
    ("Proposed",
     { is_flagship := false, acceptance := AcceptanceStatus.Proposed, is_invited := false }),
    ("Proposed for flagship",
     { is_flagship := true, acceptance := AcceptanceStatus.Proposed, is_invited := false }),
    ("Proposed for mentorship",
     { is_flagship := false, acceptance := AcceptanceStatus.Proposed, is_invited := true }),
    ("Not accepted",
     { is_flagship := false, acceptance := AcceptanceStatus.NotAccepted, is_invited := false }) ]

/-- The seven valid status labels, in table order. -/
def statusLabels : List String :=
  statusValidValues.map Prod.fst

/-- `Status::try_from(&str)`: trim, then first exact match in the fixed
table; otherwise the "unrecognized status" error naming the value and
the valid labels. -/
def statusTryFrom (value : String) : Except GoalErr Status :=
  match statusValidValues.find? (fun p => p.1 == strTrim value) with
  | some p => Except.ok p.2
  | none => Except.error (GoalErr.invalidStatus (strTrim value) statusLabels)

/-! ## Metadata extractor -/

def TRACKING_ISSUE_ROW : String := "Tracking issue"

structure Metadata where
  title : String
  short_title : String
  pocs : String
  status : Status
  tracking_issue : Option IssueId
  table : Table
  deriving DecidableEq, Repr

/-- `expect_headers`: the table header must equal the expected list. -/
def expect_headers (table : Table) (expected : List String) : Except GoalErr Unit :=
  if table.header = expected then Except.ok ()
  else Except.error (GoalErr.badHeader expected table.header)

/-- `verify_row`: a row keyed `key` must exist and hold exactly `value`. -/
def verify_row (rows : List (List String)) (key value : String) : Except GoalErr Unit :=
  match rows.find? (fun row => cell row 0 == key) with
  | none => Except.error (GoalErr.missingRow key)
  | some row =>
    if cell row 1 = value then Except.ok ()
    else Except.error (GoalErr.wrongRowValue key value)

/-- The tracking-issue stage of `extract_metadata` (the `let issue = …`
block): if a `Tracking issue` row is found, an empty value is rejected
for `Accepted` status and a non-empty value is parsed; with no such row
the issue is absent. -/
def tracking_issue_of (ctx : Ctx) (status : Status) (rows : List (List String)) :
    Except GoalErr (Option IssueId) :=
  match rows.find? (fun row => cell row 0 == TRACKING_ISSUE_ROW) with
  | some r =>
    if status.acceptance = AcceptanceStatus.Accepted ∧ cell r 1 = "" then
      Except.error GoalErr.emptyTrackingIssue
    else if cell r 1 ≠ "" then
      (ctx.parse_issue (cell r 1)).map some
    else
      Except.ok none
  | none => Except.ok none

/-- `extract_metadata`: locate the metadata table in the first section and
validate it.  `Except.ok none` is the explicit "not a goal document"
result, produced exactly when the first section has no table. -/
def extract_metadata (ctx : Ctx) (sections : List Section) :
    Except GoalErr (Option Metadata) :=
  match sections with
  | [] => Except.error GoalErr.noSections
  | first_section :: _ =>
    if first_section.title = "" then Except.error GoalErr.emptyTitle else
    let title := first_section.title
    match first_section.tables with
    | [] => Except.ok none
    | first_table :: _ => do
      expect_headers first_table ["Metadata", ""]
      let short_title_row := first_table.rows.find? (fun row => cell row 0 == "Short title")
      match first_table.rows.find? (fun row => cell row 0 == "Point of contact") with
      | none => Except.error GoalErr.noPocRow
      | some poc_row => do
        if ¬ ctx.is_just_username (strTrim (cell poc_row 1)) then
          throw (GoalErr.badPoc (cell poc_row 1))
        match first_table.rows.find? (fun row => cell row 0 == "Status") with
        | none => Except.error GoalErr.noStatusRow
        | some status_row => do
          let status ← statusTryFrom (cell status_row 1)
          let issue ← tracking_issue_of ctx status first_table.rows
          verify_row first_table.rows "Teams" ctx.teams_with_asks_str
          verify_row first_table.rows "Task owners" ctx.task_owners_str
          pure (some {
            title := title,
            short_title :=
              match short_title_row with
              | some row => cell row 1
              | none => title,
            pocs := cell poc_row 1,
            status := status,
            tracking_issue := issue,
            table := first_table })

/-- The first table of the first section, when both exist. -/
def firstTable (sections : List Section) : Option Table :=
  sections.head?.bind (fun s => s.tables.head?)

/-! ## Summary extractor -/

def extract_summary (sections : List Section) : Except GoalErr (Option String) :=
  match sections.find? (fun sec => sec.title == "Summary") with
  | none => Except.ok none
  | some sec => Except.ok (some (strTrim sec.text))

/-! ## Plan extractor -/

structure PlanItem where
  text : String
  owners : String
  notes : String
  deriving DecidableEq, Repr

structure GoalPlan where
  subgoal : Option String
  plan_items : List PlanItem
  deriving DecidableEq, Repr

/-- `goal_plan`: a section with no table yields nothing; exactly one table
is validated and each row becomes one `PlanItem`; several tables fail. -/
def goal_plan (subgoal : Option String) (sec : Section) :
    Except GoalErr (Option GoalPlan) :=
  match sec.tables with
  | [] => Except.ok none
  | [table] => do
    expect_headers table ["Task", "Owner(s) or team(s)", "Notes"]
    pure (some {
      subgoal := subgoal,
      plan_items := table.rows.map (fun row =>
        { text := cell row 0, owners := cell row 1, notes := cell row 2 }) })
  | ts => Except.error (GoalErr.multipleTables ts.length sec.title)

/-- First section titled `Ownership and team asks` together with the
sections after it (`iter().position(…)` plus `skip(index + 1)`). -/
def find_ownership_section : List Section → Option (Section × List Section)
  | [] => none
  | s :: rest =>
    if s.title == "Ownership and team asks" then some (s, rest)
    else find_ownership_section rest

/-- `extract_plan_items`: the ownership section itself (no subgoal name)
and then the following sections strictly deeper than it, up to the first
section at its level or shallower; fails when no plan at all results. -/
def extract_plan_items (sections : List Section) : Except GoalErr (List GoalPlan) := do
  match find_ownership_section sections with
  | none => Except.error GoalErr.noOwnershipSection
  | some (sec, rest) => do
    let level := sec.level
    let first ← goal_plan none sec
    let subs ← mapE (fun s => goal_plan (some s.title) s)
      (rest.takeWhile (fun s => decide (level < s.level)))
    let goal_plans := first.toList ++ subs.filterMap id
    if goal_plans.isEmpty then Except.error GoalErr.noGoalPlans
    else pure goal_plans

/-! ## Ownership resolver (`PlanItem` methods) -/

/-- Character class of the `[-.A-Za-z]+` identifier regex: ASCII letters,
`-` and `.` (note: digits are not in the class). -/
def identChar (c : Char) : Bool :=
  c = Char.ofNat 45 || c = Char.ofNat 46 ||
    (Char.ofNat 65 ≤ c && c ≤ Char.ofNat 90) ||
    (Char.ofNat 97 ≤ c && c ≤ Char.ofNat 122)

/-- Worker for `identRuns`: `acc` holds the reversed current run. -/
def identRunsAux : List Char → List Char → List (List Char)
  | [], acc => if acc = [] then [] else [acc.reverse]
  | c :: rest, acc =>
    if identChar c then identRunsAux rest (c :: acc)
    else if acc = [] then identRunsAux rest []
    else acc.reverse :: identRunsAux rest []

/-- Maximal runs of `identChar` characters, in order: the matches of
`[-.A-Za-z]+` over the character sequence. -/
def identRuns (cs : List Char) : List (List Char) :=
  identRunsAux cs []

/-- `extract_identifiers`: all matches of the regex `[-.A-Za-z]+`. -/
def extract_identifiers (s : String) : List String :=
  (identRuns s.data).map (fun run => String.mk run)

/-- `extract_team_names`: the identifiers of the owners text minus the
literal `Team` marker token. -/
def extract_team_names (s : String) : List String :=
  (extract_identifiers s).filter (fun t => t != "Team")

/-- Token character class as the spec words it, for comparison with the
source: letters, digits, `-` and `.` (the source regex `[-.A-Za-z]+`
has no digits). -/
def identCharSpecWords (c : Char) : Bool :=
  identChar c || (Char.ofNat 48 ≤ c && c ≤ Char.ofNat 57)

/-- Worker for `identRunsSpecWords`. -/
def identRunsSpecWordsAux : List Char → List Char → List (List Char)
  | [], acc => if acc = [] then [] else [acc.reverse]
  | c :: rest, acc =>
    if identCharSpecWords c then identRunsSpecWordsAux rest (c :: acc)
    else if acc = [] then identRunsSpecWordsAux rest []
    else acc.reverse :: identRunsSpecWordsAux rest []

/-- Maximal runs of `identCharSpecWords` characters: the tokenization the
spec describes, kept separate from the one the source implements. -/
def identRunsSpecWords (cs : List Char) : List (List Char) :=
  identRunsSpecWordsAux cs []

/-- The word-like tokens as the claim words them (digits included). -/
def extract_identifiers_spec_words (s : String) : List String :=
  (identRunsSpecWords s.data).map (fun run => String.mk run)

/-- `team::get_team_name` against the external registry, modelled as a
lookup in the context's list of valid team names. -/
def get_team_name (ctx : Ctx) (name : String) : Option String :=
  ctx.team_names.find? (fun t => t == name)

/-- `PlanItem::is_complete`: the notes contain the completion marker. -/
def PlanItem.is_complete (i : PlanItem) : Bool :=
  strContains i.notes "![Complete]"

/-- `PlanItem::is_team_ask`: the owners text contains the team marker. -/
def PlanItem.is_team_ask (i : PlanItem) : Bool :=
  strContains i.owners "![Team]"

/-- The loop body of `teams_being_asked`: resolve one extracted name
against the registry, failing with the unknown-team error that lists the
valid names. -/
def resolve_team_name (ctx : Ctx) (team_name : String) : Except GoalErr String :=
  match get_team_name ctx team_name with
  | some team => Except.ok team
  | none => Except.error (GoalErr.unknownTeam team_name ctx.team_names)

/-- `PlanItem::teams_being_asked`: empty unless a team ask; otherwise
resolve every extracted team name, failing on the first unknown one, and
fail when no team at all is listed. -/
def PlanItem.teams_being_asked (ctx : Ctx) (i : PlanItem) :
    Except GoalErr (List String) := do
  if ¬ i.is_team_ask then return []
  let teams ← mapE (resolve_team_name ctx) (extract_team_names i.owners)
  if teams.isEmpty then Except.error (GoalErr.emptyTeamAsk i.text)
  else pure teams

/-- `PlanItem::task_owners`: empty for a team ask; otherwise the owners
text split on commas, trimmed, with empty pieces dropped. -/
def PlanItem.task_owners (i : PlanItem) : List String :=
  if i.is_team_ask then []
  else (((splitOnChar (Char.ofNat 44) i.owners.data).map
    (fun piece => strTrim (String.mk piece))).filter (fun s => ¬ s.isEmpty))

/-! ## Team-ask aggregator -/

structure TeamAsk where
  link_path : List String
  ask_description : String
  goal_titles : List String
  teams : List String
  owners : String
  notes : String
  deriving DecidableEq, Repr

/-- `PlanItem::team_asks`: zero asks when no team is being asked; one ask
after checking the task text against the recognized-ask configuration. -/
def PlanItem.team_asks (ctx : Ctx) (link_path : List String)
    (goal_titles : List String) (goal_owners : String) (i : PlanItem) :
    Except GoalErr (List TeamAsk) := do
  let teams ← i.teams_being_asked ctx
  if teams.isEmpty then return []
  if ¬ ctx.team_asks_config.any (fun p => p.1 == i.text) then
    throw (GoalErr.unrecognizedAsk i.text ctx.team_asks_config)
  return [{
    link_path := link_path,
    ask_description := i.text,
    goal_titles := goal_titles,
    teams := teams,
    owners := goal_owners,
    notes := i.notes }]

/-! ## Goal document aggregator -/

/-- Sorted-insert preserving uniqueness; folding it models collecting
into a `BTreeSet<String>`. -/
def insertSorted (x : String) : List String → List String
  | [] => [x]
  | y :: ys =>
    if x < y then x :: y :: ys
    else if x = y then y :: ys
    else y :: insertSorted x ys

/-- `collect::<BTreeSet<String>>()`: sorted, de-duplicated contents. -/
def btreeSetOf (l : List String) : List String :=
  l.foldl (fun acc x => insertSorted x acc) []

structure GoalDocument where
  path : List String
  link_path : List String
  metadata : Metadata
  summary : String
  goal_plans : List GoalPlan
  task_owners : List String
  team_asks : List TeamAsk
  deriving DecidableEq, Repr

/-- The team-ask collection loop of `GoalDocument::load`: for each plan,
titles are the goal short title plus the subgoal title when present, and
every plan item contributes its asks in order. -/
def compute_team_asks (ctx : Ctx) (link_path : List String) (metadata : Metadata)
    (goal_plans : List GoalPlan) : Except GoalErr (List TeamAsk) := do
  let askss ← mapE (fun gp => do
      let goal_titles := metadata.short_title ::
        (match gp.subgoal with
         | some s => [s]
         | none => [])
      let itemAskss ← mapE
        (fun pi => pi.team_asks ctx link_path goal_titles metadata.pocs)
        gp.plan_items
      pure itemAskss.flatten)
    goal_plans
  pure askss.flatten

/-- The plan stage of `GoalDocument::load`: plan extraction is skipped
entirely for not-accepted goals. -/
def plans_for (status : Status) (sections : List Section) :
    Except GoalErr (List GoalPlan) :=
  if status.is_not_not_accepted then extract_plan_items sections
  else pure []

/-- The document-level invariant of `GoalDocument::load`: an
accepted-or-proposed goal with no team asks is rejected. -/
def check_team_asks (status : Status) (team_asks : List TeamAsk) :
    Except GoalErr Unit :=
  if status.is_not_not_accepted ∧ team_asks.isEmpty then
    Except.error GoalErr.noTeamAsks
  else pure ()

/-- `GoalDocument::load` (with the already-tokenized section list as
input): extract metadata — absent metadata table means "not a goal
document" — then summary, plan (skipped for not-accepted goals), team
asks, the non-empty-asks invariant, and the task-owner set. -/
def GoalDocument.load (ctx : Ctx) (path link_path : List String)
    (sections : List Section) : Except GoalErr (Option GoalDocument) := do
  match ← extract_metadata ctx sections with
  | none => return none
  | some metadata => do
    let summary ← extract_summary sections
    let goal_plans ← plans_for metadata.status sections
    let team_asks ← compute_team_asks ctx link_path metadata goal_plans
    check_team_asks metadata.status team_asks
    let task_owners := btreeSetOf
      ((goal_plans.flatMap (fun gp => gp.plan_items)).flatMap
        (fun pi => pi.task_owners))
    return some {
      path := path,
      link_path := link_path,
      summary :=
        match summary with
        | some s => s
        | none => metadata.title,
      metadata := metadata,
      goal_plans := goal_plans,
      task_owners := task_owners,
      team_asks := team_asks }

/-! ## Summary table formatter -/

/-- `point_of_contact_for_goal_list`: invited goals render the fixed
"help wanted" marker instead of the contact text. -/
def point_of_contact_for_goal_list (g : GoalDocument) : String :=
  if g.metadata.status.is_invited then "![Help Wanted][]" else g.metadata.pocs

/-- `Path::parent` over component lists: `none` only for the empty path
(Rust returns `Some("")` for a bare file name). -/
def pathParent (p : List String) : Option (List String) :=
  if p.isEmpty then none else some p.dropLast

/-- Remove the extension from the tail of a file name: drop the last
`.`-separated suffix when one exists. -/
def dropLastExt (l : List Char) : List Char :=
  let r := l.reverse
  let ext := r.takeWhile (fun c => c ≠ Char.ofNat 46)
  if ext.length = r.length then l
  else ((r.drop (ext.length + 1)).reverse)

/-- Rust `file_stem` on one file-name component: the whole name when it
has no embedded `.` past the first character, else the portion before
the final `.`. -/
def stemOf (name : String) : String :=
  match name.data with
  | [] => ""
  | c :: rest => String.mk (c :: dropLastExt rest)

/-- `Path::file_stem` over component lists: the stem of the last
component, `none` for the empty path. -/
def pathFileStem (p : List String) : Option String :=
  p.getLast?.map stemOf

/-- The milestone computation of `format_goal_table`:
`path.parent().unwrap().file_stem().unwrap()`; `none` models a panic. -/
def milestoneOf (p : List String) : Option String := do
  let par ← pathParent p
  pathFileStem par

/-- `Path::display` over component lists. -/
def pathDisplay (p : List String) : String :=
  String.intercalate "/" p

/-- `util::commas`: comma-and-space join. -/
def commas (l : List String) : String :=
  String.intercalate ", " l

/-- The goal cell `[title](link_path)`. -/
def goalLinkCell (g : GoalDocument) : String :=
  "[" ++ g.metadata.title ++ "](" ++ pathDisplay g.link_path ++ ")"

/-- The progress cell: an embedded progress-bar reference keyed
`milestone:org:repo:number` when a tracking issue exists, else the
placeholder. -/
def progressCell (ctx : Ctx) (milestone : String) (g : GoalDocument) : String :=
  match g.metadata.tracking_issue with
  | some issue_id =>
    "<a href=\x27" ++ ctx.issue_url issue_id ++
      "\x27 alt=\x27Tracking issue\x27><div class=\x27tracking-issue-progress\x27 id=\x27" ++
      milestone ++ ":" ++ issue_id.repository.org ++ ":" ++
      issue_id.repository.repo ++ ":" ++ toString issue_id.number ++
      "\x27></div></a>"
  | none => "(no tracking issue)"

/-- The team cell: sorted, de-duplicated, comma-joined team names across
the goal's asks. -/
def teamsCell (g : GoalDocument) : String :=
  commas (btreeSetOf (g.team_asks.flatMap (fun a => a.teams)))

/-- `format_goal_table`, modelled up to the final `util::format_table`
string rendering: the list of table rows, header first.  `none` models
the milestone-computation panic. -/
def format_goal_table (ctx : Ctx) (goals : List GoalDocument) :
    Option (List (List String)) :=
  let goals_are_proposed :=
    goals.any (fun g => g.metadata.status.acceptance == AcceptanceStatus.Proposed)
  if ¬ goals_are_proposed then
    (mapO (fun g =>
        (milestoneOf g.path).map (fun milestone =>
          [goalLinkCell g, point_of_contact_for_goal_list g,
           progressCell ctx milestone g]))
      goals).map
      (fun rows => ["Goal", "Point of contact", "Progress"] :: rows)
  else
    some (["Goal", "Point of contact", "Team"] ::
      goals.map (fun g =>
        [goalLinkCell g, point_of_contact_for_goal_list g, teamsCell g]))

/-! ## A concrete external context for witnesses -/

/-- A small concrete instantiation of the external collaborators, used
to run the model on concrete documents. -/
def sampleCtx : Ctx where
  is_just_username s := s == "@alice"
  teams_with_asks_str := "TEAMS-PLACEHOLDER"
  task_owners_str := "OWNERS-PLACEHOLDER"
  team_names := ["lang", "libs-api"]
  team_asks_config := [("Stabilize feature", "review and stabilize the feature")]
  parse_issue v :=
    if v = "rust-lang/rust#123" then
      Except.ok { repository := { org := "rust-lang", repo := "rust" }, number := 123 }
    else Except.error (GoalErr.badIssue v)
  issue_url id :=
    "https://github.com/" ++ id.repository.org ++ "/" ++ id.repository.repo ++
      "/issues/" ++ toString id.number


/-- A goal document with a tracking issue under a milestone directory. -/
def trackedGoal : GoalDocument where
  path := ["2024h2", "goal.md"]
  link_path := ["2024h2", "goal.md"]
  metadata :=
    { title := "Tracked", short_title := "Tracked", pocs := "@alice",
      status :=
        { is_flagship := false, acceptance := AcceptanceStatus.Accepted,
          is_invited := false },
      tracking_issue :=
        some { repository := { org := "rust-lang", repo := "rust" }, number := 123 },
      table := { header := ["Metadata", ""], rows := [] } }
  summary := "Tracked"
  goal_plans := []
  task_owners := []
  team_asks := []

/-- A goal document whose path is a bare file name (no milestone
directory). -/
def bareGoal : GoalDocument where
  path := ["goal.md"]
  link_path := ["goal.md"]
  metadata :=
    { title := "Bare", short_title := "Bare", pocs := "@alice",
      status :=
        { is_flagship := false, acceptance := AcceptanceStatus.Accepted,
          is_invited := false },
      tracking_issue := none,
      table := { header := ["Metadata", ""], rows := [] } }
  summary := "Bare"
  goal_plans := []
  task_owners := []
  team_asks := []


/-- Metadata table of an accepted goal with no `Tracking issue` row. -/
def acceptedNoTrackingTable : Table where
  header := ["Metadata", ""]
  rows := [["Point of contact", "@alice"], ["Status", "Accepted"],
           ["Teams", "TEAMS-PLACEHOLDER"], ["Task owners", "OWNERS-PLACEHOLDER"]]

def acceptedNoTrackingSections : List Section :=
  [{ title := "My goal", level := 1, text := "",
     tables := [acceptedNoTrackingTable] }]

/-- The metadata record the model extracts from
`acceptedNoTrackingSections`. -/
def noTrackingMetadata : Metadata where
  title := "My goal"
  short_title := "My goal"
  pocs := "@alice"
  status :=
    { is_flagship := false, acceptance := AcceptanceStatus.Accepted,
      is_invited := false }
  tracking_issue := none
  table := acceptedNoTrackingTable

/-- Metadata table of an accepted goal with a tracking issue. -/
def acceptedTrackedTable : Table where
  header := ["Metadata", ""]
  rows := [["Point of contact", "@alice"], ["Status", "Accepted"],
           ["Tracking issue", "rust-lang/rust#123"],
           ["Teams", "TEAMS-PLACEHOLDER"], ["Task owners", "OWNERS-PLACEHOLDER"]]

def acceptedTrackedSections : List Section :=
  [{ title := "Tracked goal", level := 1, text := "",
     tables := [acceptedTrackedTable] }]

def trackedMetadata : Metadata where
  title := "Tracked goal"
  short_title := "Tracked goal"
  pocs := "@alice"
  status :=
    { is_flagship := false, acceptance := AcceptanceStatus.Accepted,
      is_invited := false }
  tracking_issue :=
    some { repository := { org := "rust-lang", repo := "rust" }, number := 123 }
  table := acceptedTrackedTable

/-- An index page: first section has a title but no table. -/
def indexSections : List Section :=
  [{ title := "Index", level := 1, text := "welcome", tables := [] }]

/-- Metadata table of a rejected goal. -/
def notAcceptedTable : Table where
  header := ["Metadata", ""]
  rows := [["Point of contact", "@alice"], ["Status", "Not accepted"],
           ["Teams", "TEAMS-PLACEHOLDER"], ["Task owners", "OWNERS-PLACEHOLDER"]]

/-- A rejected goal document with no plan section at all. -/
def notAcceptedSections : List Section :=
  [{ title := "Rejected goal", level := 1, text := "",
     tables := [notAcceptedTable] }]

def notAcceptedMetadata : Metadata where
  title := "Rejected goal"
  short_title := "Rejected goal"
  pocs := "@alice"
  status :=
    { is_flagship := false, acceptance := AcceptanceStatus.NotAccepted,
      is_invited := false }
  tracking_issue := none
  table := notAcceptedTable

/-- A complete accepted goal document with one team ask and one
individually-owned task. -/
def fullGoalPlanTable : Table where
  header := ["Task", "Owner(s) or team(s)", "Notes"]
  rows := [["Stabilize feature", "![Team] lang", ""],
           ["Implement", "alice, bob", ""]]

def fullGoalSections : List Section :=
  [{ title := "Tracked goal", level := 1, text := "",
     tables := [acceptedTrackedTable] },
   { title := "Ownership and team asks", level := 2, text := "",
     tables := [fullGoalPlanTable] }]

def fullGoalPlans : List GoalPlan :=
  [{ subgoal := none,
     plan_items := [
       { text := "Stabilize feature", owners := "![Team] lang", notes := "" },
       { text := "Implement", owners := "alice, bob", notes := "" }] }]

def fullGoalAsks : List TeamAsk :=
  [{ link_path := ["full.md"], ask_description := "Stabilize feature",
     goal_titles := ["Tracked goal"], teams := ["lang"], owners := "@alice",
     notes := "" }]

/-! ## Helper lemmas -/

theorem ebind_ok {ε α β : Type} (e : Except ε α) (f : α → Except ε β) (b : β) :
    (e >>= f) = Except.ok b ↔ ∃ a, e = Except.ok a ∧ f a = Except.ok b := by
  cases e <;> simp [Bind.bind, Except.bind]

@[simp] theorem epure_eq_ok {ε α : Type} (a : α) :
    (pure a : Except ε α) = Except.ok a := rfl

@[simp] theorem ebind_ok_left {ε α β : Type} (a : α) (f : α → Except ε β) :
    (Except.ok a >>= f) = f a := rfl

@[simp] theorem ebind_error_left {ε α β : Type} (e : ε) (f : α → Except ε β) :
    ((Except.error e : Except ε α) >>= f) = Except.error e := rfl

/-- `find?` with an equality test finds a member itself. -/
theorem find_beq_self {l : List String} {n : String} (h : n ∈ l) :
    l.find? (fun t => t == n) = some n := by
  induction l with
  | nil => simp at h
  | cons a t ih =>
    by_cases ha : a = n
    · subst ha
      simp [List.find?_cons]
    · have hne : (a == n) = false := by simpa using ha
      have hmem : n ∈ t := by
        rcases List.mem_cons.mp h with h1 | h1
        · exact absurd h1.symm ha
        · exact h1
      simp [List.find?_cons, hne, ih hmem]

theorem get_team_name_of_mem {ctx : Ctx} {n : String} (h : n ∈ ctx.team_names) :
    get_team_name ctx n = some n :=
  find_beq_self h

theorem get_team_name_of_not_mem {ctx : Ctx} {n : String} (h : n ∉ ctx.team_names) :
    get_team_name ctx n = none := by
  unfold get_team_name
  rw [List.find?_eq_none]
  intro x hx
  simp only [beq_iff_eq]
  rintro rfl
  exact h hx

/-- Resolving a list of names that are all in the registry returns the
names themselves. -/
theorem mapE_resolve_all_mem {ctx : Ctx} {names : List String}
    (h : ∀ n ∈ names, n ∈ ctx.team_names) :
    mapE (resolve_team_name ctx) names = Except.ok names := by
  induction names with
  | nil => rfl
  | cons a t ih =>
    have ha : get_team_name ctx a = some a := get_team_name_of_mem (h a (by simp))
    have ht : mapE (resolve_team_name ctx) t = Except.ok t :=
      ih (fun n hn => h n (List.mem_cons_of_mem a hn))
    simp [mapE, resolve_team_name, ha, ht, ebind_ok]

/-- Resolving a list containing a name outside the registry fails with
an unknown-team error that lists the valid names. -/
theorem mapE_resolve_unknown {ctx : Ctx} {names : List String} {n : String}
    (hn : n ∈ names) (hout : n ∉ ctx.team_names) :
    ∃ m, m ∉ ctx.team_names ∧
      mapE (resolve_team_name ctx) names =
        Except.error (GoalErr.unknownTeam m ctx.team_names) := by
  induction names with
  | nil => simp at hn
  | cons a t ih =>
    by_cases ha : a ∈ ctx.team_names
    · have haa : get_team_name ctx a = some a := get_team_name_of_mem ha
      have hnt : n ∈ t := by
        rcases List.mem_cons.mp hn with h1 | h1
        · exact absurd (h1 ▸ ha) hout
        · exact h1
      obtain ⟨m, hm, he⟩ := ih hnt
      refine ⟨m, hm, ?_⟩
      simp [mapE, resolve_team_name, haa, he]
    · refine ⟨a, ha, ?_⟩
      have haa : get_team_name ctx a = none := get_team_name_of_not_mem ha
      simp [mapE, resolve_team_name, haa]

theorem identRunsAux_shape (cs : List Char) :
    ∀ acc, (∀ c ∈ acc, identChar c = true) →
      ∀ run ∈ identRunsAux cs acc, run ≠ [] ∧ ∀ c ∈ run, identChar c = true := by
  induction cs with
  | nil =>
    intro acc hacc run hrun
    by_cases h : acc = []
    · simp [identRunsAux, h] at hrun
    · rw [identRunsAux, if_neg h] at hrun
      rcases List.mem_singleton.mp hrun with rfl
      refine ⟨by simpa using h, ?_⟩
      intro c hc
      exact hacc c (List.mem_reverse.mp hc)
  | cons c rest ih =>
    intro acc hacc run hrun
    rw [identRunsAux] at hrun
    by_cases hc : identChar c
    · rw [if_pos hc] at hrun
      refine ih (c :: acc) ?_ run hrun
      intro x hx
      rcases List.mem_cons.mp hx with h1 | h1
      · exact h1 ▸ hc
      · exact hacc x h1
    · rw [if_neg hc] at hrun
      by_cases ha : acc = []
      · rw [if_pos ha] at hrun
        exact ih [] (by simp) run hrun
      · rw [if_neg ha] at hrun
        rcases List.mem_cons.mp hrun with h1 | h1
        · subst h1
          refine ⟨by simpa using ha, ?_⟩
          intro x hx
          exact hacc x (List.mem_reverse.mp hx)
        · exact ih [] (by simp) run h1

/-- Every token `identRuns` produces is a non-empty run of characters of
the `[-.A-Za-z]` class. -/
theorem identRuns_shape (cs : List Char) :
    ∀ run ∈ identRuns cs, run ≠ [] ∧ ∀ c ∈ run, identChar c = true :=
  identRunsAux_shape cs [] (by simp)


/-- `find_ownership_section` skips a prefix with no matching title and
returns the first match together with everything after it. -/
theorem find_ownership_append {pre tail : List Section} {s : Section}
    (hpre : ∀ x ∈ pre, x.title ≠ "Ownership and team asks")
    (hs : s.title = "Ownership and team asks") :
    find_ownership_section (pre ++ s :: tail) = some (s, tail) := by
  induction pre with
  | nil => simp [find_ownership_section, hs]
  | cons a p ih =>
    have ha : (a.title == "Ownership and team asks") = false := by
      simpa using hpre a (by simp)
    simp only [List.cons_append, find_ownership_section, ha, Bool.false_eq_true,
      if_false]
    exact ih (fun x hx => hpre x (List.mem_cons_of_mem a hx))

/-- `takeWhile (level < ·.level)` keeps exactly a strictly-deeper block
and stops at the first section at the base level or shallower. -/
theorem takeWhile_deeper {level : Nat} {deep rest : List Section} {t : Section}
    (hdeep : ∀ x ∈ deep, level < x.level) (ht : ¬ level < t.level) :
    (deep ++ t :: rest).takeWhile (fun s => decide (level < s.level)) = deep := by
  induction deep with
  | nil => simp [List.takeWhile_cons, ht]
  | cons a d ih =>
    have ha : decide (level < a.level) = true := by simpa using hdeep a (by simp)
    simp only [List.cons_append, List.takeWhile_cons, ha, if_true]
    rw [ih (fun x hx => hdeep x (List.mem_cons_of_mem a hx))]


/-- `mapO` fails as soon as any element fails. -/
theorem mapO_eq_none {α β : Type} (f : α → Option β) (l : List α) (a : α)
    (ha : a ∈ l) (hf : f a = none) : mapO f l = none := by
  induction l with
  | nil => simp at ha
  | cons x xs ih =>
    rcases List.mem_cons.mp ha with h1 | h1
    · subst h1
      simp [mapO, hf]
    · cases hx : f x with
      | none => simp [mapO, hx]
      | some y => simp [mapO, hx, ih h1]

/-- Every element of a successful `mapO` run comes from some input
element. -/
theorem mapO_mem {α β : Type} (f : α → Option β) (l : List α) (ys : List β)
    (h : mapO f l = some ys) : ∀ y ∈ ys, ∃ x ∈ l, f x = some y := by
  induction l generalizing ys with
  | nil =>
    simp only [mapO, Option.some.injEq] at h
    subst h
    simp
  | cons x xs ih =>
    cases hx : f x with
    | none => simp [mapO, hx] at h
    | some y0 =>
      cases hxs : mapO f xs with
      | none => simp [mapO, hx, hxs] at h
      | some ys1 =>
        simp only [mapO, hx, hxs, Option.bind_eq_bind, Option.some_bind,
          Option.pure_def, Option.some.injEq] at h
        subst h
        intro y hy
        rcases List.mem_cons.mp hy with h1 | h1
        · exact ⟨x, by simp, h1 ▸ hx⟩
        · obtain ⟨x1, hx1, hfx1⟩ := ih ys1 hxs y h1
          exact ⟨x1, List.mem_cons_of_mem x hx1, hfx1⟩

/-- A path with at most one component has no milestone: its parent is
empty or missing, so `file_stem` is absent. -/
theorem milestoneOf_short {p : List String} (hp : p.length ≤ 1) :
    milestoneOf p = none := by
  rcases hpl : p with _ | ⟨a, _ | ⟨b, u⟩⟩
  · rfl
  · rfl
  · rw [hpl] at hp
    simp at hp

theorem expect_headers_ok {t : Table} {e : List String} {u : Unit}
    (h : expect_headers t e = Except.ok u) : t.header = e := by
  unfold expect_headers at h
  split at h
  · assumption
  · exact absurd h (by simp)

theorem verify_row_ok {rows : List (List String)} {key value : String} {u : Unit}
    (h : verify_row rows key value = Except.ok u) :
    ∃ row, rows.find? (fun row => cell row 0 == key) = some row ∧ cell row 1 = value := by
  unfold verify_row at h
  split at h
  · exact absurd h (by simp)
  · next row hf =>
    split at h
    · next hv => exact ⟨row, hf, hv⟩
    · exact absurd h (by simp)

theorem extract_metadata_ok_inv (ctx : Ctx) (sections : List Section) (v : Option Metadata)
    (h : extract_metadata ctx sections = Except.ok v) :
    ∃ fs rest, sections = fs :: rest ∧ fs.title ≠ "" ∧
      ((fs.tables = [] ∧ v = none) ∨
       ∃ ft ts md, fs.tables = ft :: ts ∧ v = some md ∧
         ft.header = ["Metadata", ""] ∧
         md.table = ft ∧ md.title = fs.title ∧
         (∃ poc_row, ft.rows.find? (fun row => cell row 0 == "Point of contact") = some poc_row ∧
            ctx.is_just_username (strTrim (cell poc_row 1)) = true ∧ md.pocs = cell poc_row 1) ∧
         (∃ status_row, ft.rows.find? (fun row => cell row 0 == "Status") = some status_row ∧
            statusTryFrom (cell status_row 1) = Except.ok md.status) ∧
         tracking_issue_of ctx md.status ft.rows = Except.ok md.tracking_issue ∧
         verify_row ft.rows "Teams" ctx.teams_with_asks_str = Except.ok () ∧
         verify_row ft.rows "Task owners" ctx.task_owners_str = Except.ok ()) := by
  cases sections with
  | nil => simp [extract_metadata] at h
  | cons fs rest =>
    simp only [extract_metadata] at h
    split at h
    · exact absurd h (by simp)
    · next ht =>
      refine ⟨fs, rest, rfl, ht, ?_⟩
      split at h
      · next htab =>
        left
        simp only [Except.ok.injEq] at h
        exact ⟨htab, h.symm⟩
      · next ft ts htab =>
        right
        obtain ⟨u1, hexp, h⟩ := (ebind_ok _ _ _).mp h
        have hhdr : ft.header = ["Metadata", ""] := expect_headers_ok hexp
        split at h
        · exact absurd h (by simp)
        · next poc_row hpoc =>
          split at h
          · simp [throw, throwThe, MonadExceptOf.throw] at h
          · next hu =>
            have husr : ctx.is_just_username (strTrim (cell poc_row 1)) = true := by
              simpa using hu
            simp only [epure_eq_ok, ebind_ok_left] at h
            split at h
            · exact absurd h (by simp)
            · next status_row hst =>
              obtain ⟨st, hstatus, h⟩ := (ebind_ok _ _ _).mp h
              obtain ⟨issue, htrack, h⟩ := (ebind_ok _ _ _).mp h
              obtain ⟨u3, hteams, h⟩ := (ebind_ok _ _ _).mp h
              obtain ⟨u4, howners, h⟩ := (ebind_ok _ _ _).mp h
              simp only [epure_eq_ok, Except.ok.injEq] at h
              refine ⟨ft, ts, _, htab, h.symm, hhdr, rfl, rfl,
                ⟨poc_row, hpoc, husr, rfl⟩, ⟨status_row, hst, hstatus⟩, htrack, ?_, ?_⟩
              · cases u3; exact hteams
              · cases u4; exact howners

theorem tracking_issue_of_spec {ctx : Ctx} {st : Status} {rows : List (List String)}
    {issue : Option IssueId} (h : tracking_issue_of ctx st rows = Except.ok issue) :
    (rows.find? (fun row => cell row 0 == TRACKING_ISSUE_ROW) = none → issue = none) ∧
    (∀ r, rows.find? (fun row => cell row 0 == TRACKING_ISSUE_ROW) = some r →
      (cell r 1 = "" → issue = none ∧ st.acceptance ≠ AcceptanceStatus.Accepted) ∧
      (cell r 1 ≠ "" → ∃ id, ctx.parse_issue (cell r 1) = Except.ok id ∧
        issue = some id)) := by
  unfold tracking_issue_of at h
  split at h
  · next r hf =>
    constructor
    · intro hn
      rw [hf] at hn
      cases hn
    · intro r2 hr2
      rw [hf] at hr2
      injection hr2 with e
      subst e
      split at h
      · exact absurd h (by simp)
      · next hcond =>
        split at h
        · next hne =>
          constructor
          · intro he
            exact absurd he hne
          · intro _
            cases hp : ctx.parse_issue (cell r 1) with
            | error e => rw [hp] at h; simp [Except.map] at h
            | ok id =>
              rw [hp] at h
              simp only [Except.map, Except.ok.injEq] at h
              exact ⟨id, rfl, h.symm⟩
        · next hemp =>
          have hemp2 : cell r 1 = "" := by simpa using hemp
          constructor
          · intro _
            simp only [Except.ok.injEq] at h
            refine ⟨h.symm, ?_⟩
            intro hacc
            exact hcond ⟨hacc, hemp2⟩
          · intro hne
            exact absurd hemp2 hne
  · next hf =>
    constructor
    · intro _
      simp only [Except.ok.injEq] at h
      exact h.symm
    · intro r hr
      rw [hf] at hr
      cases hr

theorem extract_summary_eq (sections : List Section) :
    extract_summary sections = Except.ok
      ((sections.find? (fun sec => sec.title == "Summary")).map
        (fun sec => strTrim sec.text)) := by
  unfold extract_summary
  cases h : sections.find? (fun sec => sec.title == "Summary") <;> simp

theorem check_team_asks_ok {st : Status} {asks : List TeamAsk} {u : Unit}
    (h : check_team_asks st asks = Except.ok u) :
    st.is_not_not_accepted = true → asks ≠ [] := by
  unfold check_team_asks at h
  split at h
  · exact absurd h (by simp)
  · next hcond =>
    intro hflag hempty
    exact hcond ⟨hflag, by simp [hempty]⟩

theorem load_ok_inv (ctx : Ctx) (path lp : List String) (sections : List Section)
    (g : GoalDocument)
    (h : GoalDocument.load ctx path lp sections = Except.ok (some g)) :
    g.metadata.status.is_not_not_accepted = true → g.team_asks ≠ [] := by
  unfold GoalDocument.load at h
  obtain ⟨v, hm, h⟩ := (ebind_ok _ _ _).mp h
  cases v with
  | none => simp at h
  | some md =>
    obtain ⟨sum, hsum, h⟩ := (ebind_ok _ _ _).mp h
    obtain ⟨plans, hplans, h⟩ := (ebind_ok _ _ _).mp h
    obtain ⟨asks, hasks, h⟩ := (ebind_ok _ _ _).mp h
    obtain ⟨u, hcheck, h⟩ := (ebind_ok _ _ _).mp h
    simp only [epure_eq_ok, Except.ok.injEq, Option.some.injEq] at h
    subst h
    exact check_team_asks_ok hcheck

theorem load_eval (ctx : Ctx) (path lp : List String) (sections : List Section)
    (md : Metadata) (plans : List GoalPlan) (asks : List TeamAsk)
    (hm : extract_metadata ctx sections = Except.ok (some md))
    (hp : plans_for md.status sections = Except.ok plans)
    (ha : compute_team_asks ctx lp md plans = Except.ok asks)
    (hc : ¬ (md.status.is_not_not_accepted = true ∧ asks.isEmpty = true)) :
    GoalDocument.load ctx path lp sections = Except.ok (some
      { path := path, link_path := lp, metadata := md,
        summary :=
          match (sections.find? (fun sec => sec.title == "Summary")).map
              (fun sec => strTrim sec.text) with
          | some s => s
          | none => md.title,
        goal_plans := plans,
        task_owners := btreeSetOf
          ((plans.flatMap (fun gp => gp.plan_items)).flatMap
            (fun pi => pi.task_owners)),
        team_asks := asks }) := by
  unfold GoalDocument.load
  rw [hm]
  simp only [ebind_ok_left]
  rw [extract_summary_eq]
  simp only [ebind_ok_left]
  rw [hp]
  simp only [ebind_ok_left]
  rw [ha]
  simp only [ebind_ok_left]
  unfold check_team_asks
  rw [if_neg hc]
  simp only [epure_eq_ok, ebind_ok_left]

theorem load_error_eval (ctx : Ctx) (path lp : List String) (sections : List Section)
    (md : Metadata) (plans : List GoalPlan)
    (hm : extract_metadata ctx sections = Except.ok (some md))
    (hp : plans_for md.status sections = Except.ok plans)
    (ha : compute_team_asks ctx lp md plans = Except.ok [])
    (hflag : md.status.is_not_not_accepted = true) :
    GoalDocument.load ctx path lp sections = Except.error GoalErr.noTeamAsks := by
  unfold GoalDocument.load
  rw [hm]
  simp only [ebind_ok_left]
  rw [extract_summary_eq]
  simp only [ebind_ok_left]
  rw [hp]
  simp only [ebind_ok_left]
  rw [ha]
  simp only [ebind_ok_left]
  unfold check_team_asks
  rw [if_pos ⟨hflag, rfl⟩]
  simp only [ebind_error_left]

/-! ## Claims -/

/-- C2: each of the seven status labels, after trimming surrounding
whitespace, parses to exactly the documented (acceptance, flagship,
invited) triple, and every other trimmed string fails with the
invalid-status error naming the unmatched value and listing all seven
valid labels. -/
theorem claim_status_parser_exact (s : String) :
    (strTrim s = "Flagship" → statusTryFrom s = Except.ok
      { is_flagship := true, acceptance := AcceptanceStatus.Accepted, is_invited := false }) ∧
    (strTrim s = "Accepted" → statusTryFrom s = Except.ok
      { is_flagship := false, acceptance := AcceptanceStatus.Accepted, is_invited := false }) ∧
    (strTrim s = "Invited" → statusTryFrom s = Except.ok
      { is_flagship := false, acceptance := AcceptanceStatus.Accepted, is_invited := true }) ∧
    (strTrim s = "Proposed" → statusTryFrom s = Except.ok
      { is_flagship := false, acceptance := AcceptanceStatus.Proposed, is_invited := false }) ∧
    (strTrim s = "Proposed for flagship" → statusTryFrom s = Except.ok
      { is_flagship := true, acceptance := AcceptanceStatus.Proposed, is_invited := false }) ∧
    (strTrim s = "Proposed for mentorship" → statusTryFrom s = Except.ok
      { is_flagship := false, acceptance := AcceptanceStatus.Proposed, is_invited := true }) ∧
    (strTrim s = "Not accepted" → statusTryFrom s = Except.ok
      { is_flagship := false, acceptance := AcceptanceStatus.NotAccepted, is_invited := false }) ∧
    (strTrim s ∉ statusLabels →
      statusTryFrom s = Except.error (GoalErr.invalidStatus (strTrim s) statusLabels)) := by
  refine ⟨?_, ?_, ?_, ?_, ?_, ?_, ?_, ?_⟩ <;> intro h
  case _ => unfold statusTryFrom; rw [h]; rfl
  case _ => unfold statusTryFrom; rw [h]; rfl
  case _ => unfold statusTryFrom; rw [h]; rfl
  case _ => unfold statusTryFrom; rw [h]; rfl
  case _ => unfold statusTryFrom; rw [h]; rfl
  case _ => unfold statusTryFrom; rw [h]; rfl
  case _ => unfold statusTryFrom; rw [h]; rfl
  case _ =>
    have hf : statusValidValues.find? (fun p => p.1 == strTrim s) = none := by
      rw [List.find?_eq_none]
      intro x hx
      simp only [statusValidValues, List.mem_cons, List.not_mem_nil, or_false] at hx
      have hs : x.1 ∈ statusLabels := by
        rcases hx with h1 | h1 | h1 | h1 | h1 | h1 | h1 <;> rw [h1] <;> decide
      simp only [beq_iff_eq]
      intro he
      exact h (he ▸ hs)
    unfold statusTryFrom
    rw [hf]

/-- Witness for C2 at concrete inputs: a padded valid label and an
invalid label. -/
theorem claim_status_parser_exact_witness :
    statusTryFrom "  Proposed for flagship " = Except.ok
      { is_flagship := true, acceptance := AcceptanceStatus.Proposed, is_invited := false } ∧
    statusTryFrom "Rejected" =
      Except.error (GoalErr.invalidStatus "Rejected" statusLabels) := by
  constructor
  · exact (claim_status_parser_exact "  Proposed for flagship ").2.2.2.2.1 (by decide)
  · exact (claim_status_parser_exact "Rejected").2.2.2.2.2.2.2 (by decide)

/-- C6: a team-ask plan item has an empty task-owner list; any other plan
item's task owners are the comma-separated pieces of the owners text,
trimmed, with empty pieces dropped; in particular an owners cell of
"alice, bob" is not a team ask and yields owners alice and bob. -/
theorem claim_task_owners_split (i : PlanItem) :
    (i.is_team_ask = true → i.task_owners = []) ∧
    (i.is_team_ask = false → i.task_owners =
      (((splitOnChar (Char.ofNat 44) i.owners.data).map
        (fun piece => strTrim (String.mk piece))).filter (fun s => ¬ s.isEmpty))) ∧
    (PlanItem.is_team_ask { text := "t", owners := "alice, bob", notes := "" } = false ∧
      PlanItem.task_owners { text := "t", owners := "alice, bob", notes := "" } =
        ["alice", "bob"]) := by
  refine ⟨?_, ?_, by decide, by decide⟩
  · intro h
    simp [PlanItem.task_owners, h]
  · intro h
    simp [PlanItem.task_owners, h]

/-- Witness for C6: the non-team-ask branch applied at the concrete
"alice, bob" item. -/
theorem claim_task_owners_split_witness :
    PlanItem.task_owners { text := "t", owners := "alice, bob", notes := "" } =
      (((splitOnChar (Char.ofNat 44)
          (String.data "alice, bob")).map
        (fun piece => strTrim (String.mk piece))).filter (fun s => ¬ s.isEmpty)) :=
  (claim_task_owners_split { text := "t", owners := "alice, bob", notes := "" }).2.1
    (by decide)

/-- C3 counterexample: the claim says tokens are made of letters, digits,
`-` and `.`; on the owners text `![Team] lang2` that reading would make
the single non-marker token `lang2`, which is not a registered team, so
the claim demands failure — but the source regex `[-.A-Za-z]+` has no
digits, extracts `lang`, and the call succeeds. -/
theorem claim_teams_tokens_counterexample :
    PlanItem.teams_being_asked sampleCtx
        { text := "Ask", owners := "![Team] lang2", notes := "" } =
      Except.ok ["lang"] ∧
    extract_identifiers "![Team] lang2" = ["Team", "lang"] ∧
    extract_identifiers_spec_words "![Team] lang2" = ["Team", "lang2"] ∧
    "lang2" ∉ sampleCtx.team_names := by
  refine ⟨rfl, rfl, rfl, by decide⟩

/-- C3 as amended: tokens are the maximal runs of letters, `-` and `.`
(no digits); a non-team-ask yields no teams; a team ask resolves every
non-marker token, any token outside the registry fails with an
unknown-team error listing the valid names, and a team ask with no
token at all fails. -/
theorem claim_teams_being_asked_amended (ctx : Ctx) (i : PlanItem) :
    (i.is_team_ask = false → i.teams_being_asked ctx = Except.ok []) ∧
    (∀ tok ∈ extract_identifiers i.owners,
      tok.data ≠ [] ∧ ∀ c ∈ tok.data, identChar c = true) ∧
    (extract_team_names i.owners =
      (extract_identifiers i.owners).filter (fun t => t != "Team")) ∧
    (i.is_team_ask = true → extract_team_names i.owners = [] →
      i.teams_being_asked ctx = Except.error (GoalErr.emptyTeamAsk i.text)) ∧
    (i.is_team_ask = true →
      (∀ n ∈ extract_team_names i.owners, n ∈ ctx.team_names) →
      extract_team_names i.owners ≠ [] →
      i.teams_being_asked ctx = Except.ok (extract_team_names i.owners)) ∧
    (i.is_team_ask = true →
      ∀ n ∈ extract_team_names i.owners, n ∉ ctx.team_names →
      ∃ m, m ∉ ctx.team_names ∧
        i.teams_being_asked ctx =
          Except.error (GoalErr.unknownTeam m ctx.team_names)) := by
  refine ⟨?_, ?_, rfl, ?_, ?_, ?_⟩
  · intro h
    simp [PlanItem.teams_being_asked, h]
  · intro tok htok
    simp only [extract_identifiers, List.mem_map] at htok
    obtain ⟨run, hrun, hmk⟩ := htok
    obtain ⟨hne, hall⟩ := identRuns_shape i.owners.data run hrun
    subst hmk
    exact ⟨hne, hall⟩
  · intro h hnil
    simp [PlanItem.teams_being_asked, h, hnil, mapE]
  · intro h hall hne
    have hres := @mapE_resolve_all_mem ctx _ hall
    simp [PlanItem.teams_being_asked, h, hres, List.isEmpty_iff, hne]
  · intro h n hn hout
    obtain ⟨m, hm, he⟩ := @mapE_resolve_unknown ctx _ _ hn hout
    refine ⟨m, hm, ?_⟩
    simp [PlanItem.teams_being_asked, h, he]

/-- Witness for C3 as amended: a team ask over two registered teams
resolves to exactly those teams. -/
theorem claim_teams_being_asked_amended_witness :
    PlanItem.teams_being_asked sampleCtx
        { text := "Ask", owners := "![Team] lang libs-api", notes := "" } =
      Except.ok (extract_team_names "![Team] lang libs-api") :=
  ((claim_teams_being_asked_amended sampleCtx
      { text := "Ask", owners := "![Team] lang libs-api", notes := "" }).2.2.2.2.1)
    (by decide) (by decide) (by decide)

/-- C5: when a section list contains a section titled exactly
`Ownership and team asks`, plan extraction processes that section itself
with no subgoal name and then exactly the immediately-following sections
whose level is strictly deeper, in order; it stops at the first
subsequent section at an equal or shallower level, and sections after
that stopping point contribute nothing even if deeper. -/
theorem claim_plan_section_range (pre deep rest : List Section) (s t : Section)
    (hpre : ∀ x ∈ pre, x.title ≠ "Ownership and team asks")
    (hs : s.title = "Ownership and team asks")
    (hdeep : ∀ x ∈ deep, s.level < x.level)
    (ht : t.level ≤ s.level) :
    extract_plan_items (pre ++ s :: (deep ++ t :: rest)) = (do
      let first ← goal_plan none s
      let subs ← mapE (fun x => goal_plan (some x.title) x) deep
      let goal_plans := first.toList ++ subs.filterMap id
      if goal_plans.isEmpty then Except.error GoalErr.noGoalPlans
      else pure goal_plans) := by
  have h1 := @find_ownership_append pre (deep ++ t :: rest) s hpre hs
  have h2 := @takeWhile_deeper s.level deep rest t hdeep (show ¬ s.level < t.level by omega)
  simp only [extract_plan_items, h1]
  rw [h2]

/-- Witness for C5 on a concrete document: an intro section, the
ownership section, one deeper subsection, a sibling stopping section,
and a trailing deeper section that is ignored. -/
theorem claim_plan_section_range_witness :
    extract_plan_items
        [{ title := "Intro", level := 1, text := "", tables := [] },
         { title := "Ownership and team asks", level := 2, text := "",
           tables := [{ header := ["Task", "Owner(s) or team(s)", "Notes"],
                        rows := [["Do it", "alice", ""]] }] },
         { title := "Subgoal A", level := 3, text := "",
           tables := [{ header := ["Task", "Owner(s) or team(s)", "Notes"],
                        rows := [["Help", "bob", ""]] }] },
         { title := "Sibling", level := 2, text := "", tables := [] },
         { title := "Late deep", level := 5, text := "",
           tables := [{ header := ["Task", "Owner(s) or team(s)", "Notes"],
                        rows := [["Ignored", "carol", ""]] }] }] = (do
      let first ← goal_plan none
        { title := "Ownership and team asks", level := 2, text := "",
          tables := [{ header := ["Task", "Owner(s) or team(s)", "Notes"],
                       rows := [["Do it", "alice", ""]] }] }
      let subs ← mapE (fun x => goal_plan (some x.title) x)
        [{ title := "Subgoal A", level := 3, text := "",
           tables := [{ header := ["Task", "Owner(s) or team(s)", "Notes"],
                        rows := [["Help", "bob", ""]] }] }]
      let goal_plans := first.toList ++ subs.filterMap id
      if goal_plans.isEmpty then Except.error GoalErr.noGoalPlans
      else pure goal_plans) :=
  claim_plan_section_range
    [{ title := "Intro", level := 1, text := "", tables := [] }]
    [{ title := "Subgoal A", level := 3, text := "",
       tables := [{ header := ["Task", "Owner(s) or team(s)", "Notes"],
                    rows := [["Help", "bob", ""]] }] }]
    [{ title := "Late deep", level := 5, text := "",
       tables := [{ header := ["Task", "Owner(s) or team(s)", "Notes"],
                    rows := [["Ignored", "carol", ""]] }] }]
    { title := "Ownership and team asks", level := 2, text := "",
      tables := [{ header := ["Task", "Owner(s) or team(s)", "Notes"],
                   rows := [["Do it", "alice", ""]] }] }
    { title := "Sibling", level := 2, text := "", tables := [] }
    (by decide) (by decide) (by decide) (by decide)

/-- C10: on the non-proposed layout, `format_goal_table` is partial: it
unwraps the parent directory and its file stem for each goal's path, and
a goal whose path lacks a parent component (a bare file name) makes the
milestone computation panic (modelled as `none`) instead of producing an
error value. -/
theorem claim_format_table_milestone_panic (ctx : Ctx) (goals : List GoalDocument)
    (g : GoalDocument) (hmem : g ∈ goals)
    (hnp : goals.any
      (fun x => x.metadata.status.acceptance == AcceptanceStatus.Proposed) = false)
    (hpath : g.path.length ≤ 1) :
    format_goal_table ctx goals = none := by
  have hf : (milestoneOf g.path).map (fun milestone =>
      [goalLinkCell g, point_of_contact_for_goal_list g,
       progressCell ctx milestone g]) = none := by
    rw [milestoneOf_short hpath]
    rfl
  unfold format_goal_table
  simp only [hnp, Bool.false_eq_true, not_false_eq_true, if_pos]
  rw [mapO_eq_none _ goals g hmem hf]
  rfl

/-- Witness for C10: a single accepted goal living at a bare file name
path makes the formatter panic. -/
theorem claim_format_table_milestone_panic_witness :
    format_goal_table sampleCtx [bareGoal] = none :=
  claim_format_table_milestone_panic sampleCtx [bareGoal] bareGoal
    (by decide) (by decide) (by decide)

/-- C7: `format_goal_table` renders the `[Goal, Point of contact, Team]`
header exactly when some goal is `Proposed`; otherwise it renders
`[Goal, Point of contact, Progress]` and every progress cell is either
the "(no tracking issue)" placeholder or an embedded progress-bar
reference keyed `milestone:org:repo:number`. -/
theorem claim_goal_table_layout (ctx : Ctx) (goals : List GoalDocument)
    (tbl : List (List String)) (h : format_goal_table ctx goals = some tbl) :
    (goals.any
        (fun g => g.metadata.status.acceptance == AcceptanceStatus.Proposed) = true →
      tbl.head? = some ["Goal", "Point of contact", "Team"]) ∧
    (goals.any
        (fun g => g.metadata.status.acceptance == AcceptanceStatus.Proposed) = false →
      tbl.head? = some ["Goal", "Point of contact", "Progress"] ∧
      ∀ row ∈ tbl.tail, ∃ link poc prog, row = [link, poc, prog] ∧
        (prog = "(no tracking issue)" ∨
         ∃ u m org repo num, prog =
           "<a href=\x27" ++ u ++
             "\x27 alt=\x27Tracking issue\x27><div class=\x27tracking-issue-progress\x27 id=\x27" ++
             m ++ ":" ++ org ++ ":" ++ repo ++ ":" ++ toString (num : Nat) ++
             "\x27></div></a>")) := by
  by_cases hp : goals.any
      (fun g => g.metadata.status.acceptance == AcceptanceStatus.Proposed) = true
  · unfold format_goal_table at h
    simp only [hp, not_true_eq_false] at h
    rw [if_neg not_false] at h
    simp only [Option.some.injEq] at h
    constructor
    · intro _
      rw [← h]
      rfl
    · intro habs
      rw [hp] at habs
      exact absurd habs (by simp)
  · have hp2 : goals.any
        (fun g => g.metadata.status.acceptance == AcceptanceStatus.Proposed) = false := by
      simpa using hp
    unfold format_goal_table at h
    simp only [hp2, Bool.false_eq_true, not_false_eq_true, if_pos] at h
    cases hm : mapO (fun g => (milestoneOf g.path).map (fun milestone =>
        [goalLinkCell g, point_of_contact_for_goal_list g,
         progressCell ctx milestone g])) goals with
    | none => rw [hm] at h; simp at h
    | some rows =>
      rw [hm] at h
      simp only [Option.map_some', Option.some.injEq] at h
      constructor
      · intro habs
        rw [hp2] at habs
        exact absurd habs (by simp)
      · intro _
        constructor
        · rw [← h]
          rfl
        · intro row hrow
          have hrow2 : row ∈ rows := by
            rw [← h] at hrow
            simpa using hrow
          obtain ⟨g, hg, hfg⟩ := mapO_mem _ goals rows hm row hrow2
          cases hms : milestoneOf g.path with
          | none => rw [hms] at hfg; simp at hfg
          | some m =>
            rw [hms] at hfg
            simp only [Option.map_some', Option.some.injEq] at hfg
            refine ⟨goalLinkCell g, point_of_contact_for_goal_list g,
              progressCell ctx m g, hfg.symm, ?_⟩
            unfold progressCell
            cases g.metadata.tracking_issue with
            | none => exact Or.inl rfl
            | some issue_id =>
              exact Or.inr ⟨ctx.issue_url issue_id, m, issue_id.repository.org,
                issue_id.repository.repo, issue_id.number, rfl⟩

/-- Witness for C7: one accepted goal with a tracking issue renders the
progress layout. -/
theorem claim_goal_table_layout_witness :
    (format_goal_table sampleCtx [trackedGoal] =
      some [["Goal", "Point of contact", "Progress"],
        ["[Tracked](2024h2/goal.md)", "@alice",
         "<a href=\x27https://github.com/rust-lang/rust/issues/123\x27 alt=\x27Tracking issue\x27><div class=\x27tracking-issue-progress\x27 id=\x272024h2:rust-lang:rust:123\x27></div></a>"]]) ∧
    ([["Goal", "Point of contact", "Progress"],
        ["[Tracked](2024h2/goal.md)", "@alice",
         "<a href=\x27https://github.com/rust-lang/rust/issues/123\x27 alt=\x27Tracking issue\x27><div class=\x27tracking-issue-progress\x27 id=\x272024h2:rust-lang:rust:123\x27></div></a>"]] :
      List (List String)).head? =
      some ["Goal", "Point of contact", "Progress"] :=
  ⟨rfl,
    ((claim_goal_table_layout sampleCtx [trackedGoal] _ rfl).2 (by decide)).1⟩

/-- C1 counterexample: a metadata table with `Status = Accepted` and no
`Tracking issue` row at all extracts successfully with an absent
tracking issue, where the claim demands failure. -/
theorem claim_tracking_absent_counterexample :
    extract_metadata sampleCtx acceptedNoTrackingSections =
      Except.ok (some noTrackingMetadata) ∧
    noTrackingMetadata.status.acceptance = AcceptanceStatus.Accepted ∧
    noTrackingMetadata.tracking_issue = none ∧
    acceptedNoTrackingTable.rows.find?
      (fun row => cell row 0 == TRACKING_ISSUE_ROW) = none :=
  ⟨rfl, rfl, rfl, rfl⟩

/-- C1 as amended: the accepted-goal failure fires only when a
`Tracking issue` row is present with an empty value; with the row absent
the extracted tracking issue is simply absent, also for accepted goals;
and a present, non-empty value that parses is exposed as the record's
IssueId. -/
theorem claim_tracking_issue_amended (ctx : Ctx) (sections : List Section)
    (md : Metadata) (ft : Table)
    (hm : extract_metadata ctx sections = Except.ok (some md))
    (hft : firstTable sections = some ft) :
    (ft.rows.find? (fun row => cell row 0 == TRACKING_ISSUE_ROW) = none →
      md.tracking_issue = none) ∧
    (∀ r, ft.rows.find? (fun row => cell row 0 == TRACKING_ISSUE_ROW) = some r →
      (cell r 1 = "" →
        md.tracking_issue = none ∧ md.status.acceptance ≠ AcceptanceStatus.Accepted) ∧
      (cell r 1 ≠ "" → ∃ id, ctx.parse_issue (cell r 1) = Except.ok id ∧
        md.tracking_issue = some id)) := by
  obtain ⟨fs, rest, hsec, htitle, hdisj⟩ :=
    extract_metadata_ok_inv ctx sections (some md) hm
  rcases hdisj with ⟨htab, hv⟩ | ⟨ft2, ts, md2, htab, hv, hhdr, htable, htitle2,
    hpoc, hstat, htrack, hteams, howners⟩
  · exact absurd hv (by simp)
  · injection hv with hv2
    subst hv2
    have hfteq : ft = ft2 := by
      rw [hsec] at hft
      simp only [firstTable, List.head?_cons, Option.some.injEq, Option.bind_eq_bind,
        Option.some_bind] at hft
      rw [htab] at hft
      simp only [List.head?_cons, Option.some.injEq] at hft
      exact hft.symm
    subst hfteq
    exact tracking_issue_of_spec htrack

/-- Witness for C1 as amended: an accepted goal with the row present and
a parsing value exposes the parsed IssueId. -/
theorem claim_tracking_issue_amended_witness :
    ∃ id, sampleCtx.parse_issue (cell ["Tracking issue", "rust-lang/rust#123"] 1) =
        Except.ok id ∧
      trackedMetadata.tracking_issue = some id :=
  (((claim_tracking_issue_amended sampleCtx acceptedTrackedSections
      trackedMetadata acceptedTrackedTable rfl rfl).2
    ["Tracking issue", "rust-lang/rust#123"] rfl).2) (by decide)

/-- C8: a first section with a non-empty title and no table makes
metadata extraction return the explicit absent result (and only that
case does), the loader then skips the document without error, and any
successful extraction implies the header and all four required rows
checked out. -/
theorem claim_no_table_skip (ctx : Ctx) (path lp : List String)
    (sections : List Section) :
    (extract_metadata ctx sections = Except.ok none ↔
      ∃ fs rest, sections = fs :: rest ∧ fs.title ≠ "" ∧ fs.tables = []) ∧
    (extract_metadata ctx sections = Except.ok none →
      GoalDocument.load ctx path lp sections = Except.ok none) ∧
    (∀ md, extract_metadata ctx sections = Except.ok (some md) →
      ∀ ft, firstTable sections = some ft →
        ft.header = ["Metadata", ""] ∧
        (ft.rows.find? (fun row => cell row 0 == "Point of contact")).isSome = true ∧
        (ft.rows.find? (fun row => cell row 0 == "Status")).isSome = true ∧
        (∃ row, ft.rows.find? (fun row => cell row 0 == "Teams") = some row ∧
          cell row 1 = ctx.teams_with_asks_str) ∧
        (∃ row, ft.rows.find? (fun row => cell row 0 == "Task owners") = some row ∧
          cell row 1 = ctx.task_owners_str)) := by
  refine ⟨⟨?_, ?_⟩, ?_, ?_⟩
  · intro h
    obtain ⟨fs, rest, hsec, ht, hdisj⟩ := extract_metadata_ok_inv ctx sections none h
    rcases hdisj with ⟨htab, _⟩ | ⟨ft, ts, md, htab, hv, _⟩
    · exact ⟨fs, rest, hsec, ht, htab⟩
    · exact absurd hv (by simp)
  · rintro ⟨fs, rest, rfl, ht, htab⟩
    simp [extract_metadata, ht, htab]
  · intro h
    unfold GoalDocument.load
    rw [h]
    simp only [ebind_ok_left]
    rfl
  · intro md h ft hft
    obtain ⟨fs, rest, hsec, htitle, hdisj⟩ :=
      extract_metadata_ok_inv ctx sections (some md) h
    rcases hdisj with ⟨htab, hv⟩ | ⟨ft2, ts, md2, htab, hv, hhdr, htable, htitle2,
      hpoc, hstat, htrack, hteams, howners⟩
    · exact absurd hv (by simp)
    · have hfteq : ft = ft2 := by
        rw [hsec] at hft
        simp only [firstTable, List.head?_cons, Option.bind_eq_bind,
          Option.some_bind] at hft
        rw [htab] at hft
        simp only [List.head?_cons, Option.some.injEq] at hft
        exact hft.symm
      subst hfteq
      obtain ⟨poc_row, hpocf, _, _⟩ := hpoc
      obtain ⟨status_row, hstf, _⟩ := hstat
      obtain ⟨rowT, hrowT, hvalT⟩ := verify_row_ok hteams
      obtain ⟨rowO, hrowO, hvalO⟩ := verify_row_ok howners
      exact ⟨hhdr, by rw [hpocf]; rfl, by rw [hstf]; rfl,
        ⟨rowT, hrowT, hvalT⟩, ⟨rowO, hrowO, hvalO⟩⟩

/-- Witness for C8: an index page (title, no table) is skipped by the
loader, and a complete metadata table extracts successfully. -/
theorem claim_no_table_skip_witness :
    GoalDocument.load sampleCtx ["index.md"] ["index.md"] indexSections =
      Except.ok none :=
  (claim_no_table_skip sampleCtx ["index.md"] ["index.md"] indexSections).2.1 rfl

/-- C9: a successfully loaded not-accepted goal has empty plans, empty
team asks and empty task owners, and loading succeeds however the rest
of the document looks — no plan, ownership or ask-vocabulary validation
runs. -/
theorem claim_not_accepted_all_empty (ctx : Ctx) (path lp : List String)
    (sections : List Section) (md : Metadata)
    (hm : extract_metadata ctx sections = Except.ok (some md))
    (hs : md.status.acceptance = AcceptanceStatus.NotAccepted) :
    ∃ g, GoalDocument.load ctx path lp sections = Except.ok (some g) ∧
      g.metadata = md ∧ g.goal_plans = [] ∧ g.team_asks = [] ∧
      g.task_owners = [] := by
  have hflag : md.status.is_not_not_accepted = false := by
    simp [Status.is_not_not_accepted, hs]
  have hp : plans_for md.status sections = Except.ok [] := by
    simp [plans_for, hflag]
  have ha : compute_team_asks ctx lp md [] = Except.ok [] := rfl
  have hc : ¬ (md.status.is_not_not_accepted = true ∧
      (([] : List TeamAsk)).isEmpty = true) := by
    simp [hflag]
  exact ⟨_, load_eval ctx path lp sections md [] [] hm hp ha hc, rfl, rfl, rfl, rfl⟩

/-- Witness for C9: a rejected goal document with no ownership section
loads successfully with all derived collections empty. -/
theorem claim_not_accepted_all_empty_witness :
    ∃ g, GoalDocument.load sampleCtx ["na.md"] ["na.md"] notAcceptedSections =
        Except.ok (some g) ∧
      g.metadata = notAcceptedMetadata ∧ g.goal_plans = [] ∧ g.team_asks = [] ∧
      g.task_owners = [] :=
  claim_not_accepted_all_empty sampleCtx ["na.md"] ["na.md"] notAcceptedSections
    notAcceptedMetadata rfl rfl

/-- C4: under a proposed-or-accepted status, a document whose computed
team-ask list is empty fails to load with the no-team-asks error, one
with a non-empty ask list loads and carries exactly those asks, and
every successfully loaded proposed-or-accepted goal has a non-empty
team-ask list. -/
theorem claim_team_asks_invariant (ctx : Ctx) (path lp : List String)
    (sections : List Section) (md : Metadata) (plans : List GoalPlan)
    (asks : List TeamAsk)
    (hm : extract_metadata ctx sections = Except.ok (some md))
    (hflag : md.status.is_not_not_accepted = true)
    (hp : extract_plan_items sections = Except.ok plans)
    (ha : compute_team_asks ctx lp md plans = Except.ok asks) :
    (asks = [] →
      GoalDocument.load ctx path lp sections = Except.error GoalErr.noTeamAsks) ∧
    (asks ≠ [] → ∃ g, GoalDocument.load ctx path lp sections = Except.ok (some g) ∧
      g.metadata = md ∧ g.team_asks = asks) ∧
    (∀ g, GoalDocument.load ctx path lp sections = Except.ok (some g) →
      g.metadata.status.is_not_not_accepted = true → g.team_asks ≠ []) := by
  have hp2 : plans_for md.status sections = Except.ok plans := by
    simp [plans_for, hflag, hp]
  refine ⟨?_, ?_, fun g hg => load_ok_inv ctx path lp sections g hg⟩
  · intro he
    subst he
    exact load_error_eval ctx path lp sections md plans hm hp2 ha hflag
  · intro hne
    refine ⟨_, load_eval ctx path lp sections md plans asks hm hp2 ha ?_, rfl, rfl⟩
    rintro ⟨_, hempty⟩
    exact hne (by simpa using hempty)

/-- Witness for C4: the complete accepted goal document with one
recognized team ask loads successfully and carries that ask. -/
theorem claim_team_asks_invariant_witness :
    ∃ g, GoalDocument.load sampleCtx ["2024h2", "full.md"] ["full.md"]
        fullGoalSections = Except.ok (some g) ∧
      g.metadata = trackedMetadata ∧ g.team_asks = fullGoalAsks :=
  (claim_team_asks_invariant sampleCtx ["2024h2", "full.md"] ["full.md"]
      fullGoalSections trackedMetadata fullGoalPlans fullGoalAsks
      rfl rfl rfl rfl).2.1 (by decide)

end RPG
